import Mathlib

set_option maxRecDepth 2000

/-!
Shallow embedding of the bantime ETA estimator
(src/eta_estimator.py together with src/ban_area_utils.py).

Conventions used throughout:

* Instants are rationals: local-time seconds counted from an epoch that
  falls on a Monday 00:00.  All datetimes in the Python code are first
  normalised to the fixed-offset Asia/Riyadh zone (no DST), so the local
  timeline is linear; `strftime('%A')` becomes `day_name`, `.time()`
  becomes `timeOfDay`, and `replace(hour=h, minute=m, second=0,
  microsecond=0)` becomes `dayStart t + 3600*h + 60*m`.
* Durations (Python `timedelta`) are rationals measured in seconds.
* `haversine` (transcendental great-circle trigonometry over floats) is
  abstracted as a distance oracle `hav : Point → Point → ℚ`; shapely
  polygon containment is abstracted as one containment predicate per
  catalog polygon.  No claim below depends on the internals of either.
* The route geometry and the provider's total duration are inputs (the
  OpenRouteService HTTP call is external I/O, out of the core).
* A Python delay dict with possibly-missing keys is a structure with
  `Option` fields; a `KeyError` raised while building the schedule is
  modelled by the whole computation returning `none`.
-/

namespace Bantime

/-- A coordinate. The Python code stores route points as `[lon, lat]`. -/
structure Point where
  lon : ℚ
  lat : ℚ
deriving DecidableEq, Repr

/-- A `datetime.time` value as produced by `ban_area_utils.parse_time`
(hour/minute/second components; microseconds are always zero there). -/
structure ClockTime where
  hour : ℕ
  minute : ℕ
  second : ℕ
deriving DecidableEq, Repr

/-- Total seconds of a clock time; Python compares `datetime.time` values
componentwise lexicographically, which for in-range values coincides with
comparing total seconds. -/
def ClockTime.toSecs (c : ClockTime) : ℚ :=
  3600 * c.hour + 60 * c.minute + c.second

/-- One row of `ban_times.json` (time strings already parsed to clock
times; `ban_area_utils.parse_time` parses them identically at each query). -/
structure BanRule where
  city : String
  day_of_week : String
  time_start : ClockTime
  time_end : ClockTime
deriving DecidableEq, Repr

/-- The dict returned by `point_in_any_ban_zone_using_manager`
(`{'city': ..., 'time_start': ..., 'time_end': ...}`); Python compares
these dicts structurally at the dedup check. -/
structure BanInfo where
  city : String
  time_start : ClockTime
  time_end : ClockTime
deriving DecidableEq, Repr

/-- `ban_area_utils.BanAreaManager`: city polygons (each abstracted as its
shapely containment predicate, in dict insertion order) and the ban-time
rows. -/
structure BanAreaManager where
  polygons : List (String × (Point → Bool))
  ban_times : List BanRule

/-- Midnight of the local calendar day containing `t`. -/
def dayStart (t : ℚ) : ℚ := 86400 * ⌊t / 86400⌋

/-- Python `dt.time()` as seconds of day. -/
def timeOfDay (t : ℚ) : ℚ := t - dayStart t

def day_names : List String :=
  ["Monday", "Tuesday", "Wednesday", "Thursday", "Friday", "Saturday", "Sunday"]

/-- Python `dt.strftime('%A')` (the epoch is a Monday). -/
def day_name (t : ℚ) : String :=
  day_names.getD (⌊t / 86400⌋ % 7).toNat ""

/-- `BanAreaManager.is_in_ban_area` (src/ban_area_utils.py lines 26-32):
first city in dict order whose polygon contains `Point(lon, lat)`. -/
def is_in_ban_area (mgr : BanAreaManager) (lat lon : ℚ) : Option String :=
  mgr.polygons.findSome? fun cp => if cp.2 ⟨lon, lat⟩ then some cp.1 else none

/-- `BanAreaManager.get_ban_times` (src/ban_area_utils.py lines 34-51):
rows for this city whose weekday matches `t` and whose clock window
satisfies `start <= t.time() <= end`. -/
def get_ban_times (mgr : BanAreaManager) (city : String) (t : ℚ) :
    List (ClockTime × ClockTime) :=
  if city = "" then []
  else
    (mgr.ban_times.filter fun b =>
        b.city == city && b.day_of_week == day_name t &&
        decide (b.time_start.toSecs ≤ timeOfDay t) &&
        decide (timeOfDay t ≤ b.time_end.toSecs)).map
      fun b => (b.time_start, b.time_end)

/-- `point_in_any_ban_zone_using_manager`
(src/eta_estimator.py lines 73-94). -/
def point_in_any_ban_zone_using_manager (mgr : BanAreaManager)
    (lat lon : ℚ) (t : ℚ) : Option BanInfo :=
  match is_in_ban_area mgr lat lon with
  | none => none
  | some city =>
    if city = "" then none
    else
      (get_ban_times mgr city t).findSome? fun se =>
        if se.1.toSecs ≤ se.2.toSecs then
          if se.1.toSecs ≤ timeOfDay t ∧ timeOfDay t ≤ se.2.toSecs then
            some ⟨city, se.1, se.2⟩
          else none
        else
          if timeOfDay t ≥ se.1.toSecs ∨ timeOfDay t ≤ se.2.toSecs then
            some ⟨city, se.1, se.2⟩
          else none

/-- The `ban_end_time` computation repeated at src/eta_estimator.py lines
232-242, 272-282 and 319-328: `current_time.replace(hour=end.hour,
minute=end.minute, second=0, microsecond=0)`, plus one day when
`time_end <= time_start`. -/
def resolveBanEnd (t : ℚ) (z : BanInfo) : ℚ :=
  (if z.time_end.toSecs ≤ z.time_start.toSecs then 86400 else 0) +
    dayStart t + 3600 * z.time_end.hour + 60 * z.time_end.minute

/-- A delay dict as appended to `delays`.  The interior-sampling append at
lines 332-335 sets only `city` and `wait`; all other keys are absent,
hence `Option`. -/
structure Delay where
  city : String
  wait : ℚ
  ban_start : Option ℚ
  ban_end : Option ℚ
  eta_at_ban : Option ℚ
  lat : Option ℚ
  lon : Option ℚ
  stop_lat : Option ℚ
  stop_lon : Option ℚ
deriving DecidableEq, Repr

/-- A fully-populated delay dict (the rest append at lines 210-220 and the
ban appends at lines 246-256 and 286-296: `lat/stop_lat` get the point's
latitude, `lon/stop_lon` the longitude). -/
def fullDelay (city : String) (wait bs be eta : ℚ) (p : Point) : Delay :=
  { city := city, wait := wait, ban_start := some bs, ban_end := some be,
    eta_at_ban := some eta, lat := some p.lat, lon := some p.lon,
    stop_lat := some p.lat, stop_lon := some p.lon }

/-- A driving period `(start_time, end_time, duration)`. -/
abbrev Period := ℚ × ℚ × ℚ

/-- Line 197 / line 222: keep periods with `current_time - start < 24h`. -/
def prunePeriods (t : ℚ) (ps : List Period) : List Period :=
  ps.filter fun d => decide (t - d.1 < 86400)

/-- Line 198: `driving_time_24h` as recomputed from the pruned list. -/
def drivingTime24h (ps : List Period) : ℚ :=
  (ps.map fun d => d.2.2).sum

/-- Line 203: `min(d[0] for d in driving_periods)` (junk 0 on `[]`, which
the code never evaluates). -/
def oldestStart : List Period → ℚ
  | [] => 0
  | p :: rest => rest.foldl (fun a q => min a q.1) p.1

/-- Lines 202-209: the rest duration decided when a rest is inserted
(14 h = 50400 s, 24 h = 86400 s). -/
def restNeeded (now : ℚ) (ps : List Period) : ℚ :=
  let rest_until := if ps = [] then now + 50400 else oldestStart ps + 86400
  let rest_time := rest_until - now
  if rest_time < 50400 then 50400 else rest_time

/-- A (sub)segment: endpoints, duration (seconds) and distance (km).
`seg_time` / `seg_dist` / `sub_seg_time` / `sub_seg_dist` in the code. -/
structure Seg where
  p1 : Point
  p2 : Point
  dur : ℚ
  dist : ℚ
deriving DecidableEq, Repr

/-- Planar interpolation `p1 + (p2 - p1) * frac`, componentwise on
(lon, lat), as at lines 187-193 and 313-316. -/
def lerp (a b : Point) (f : ℚ) : Point :=
  ⟨a.lon + (b.lon - a.lon) * f, a.lat + (b.lat - a.lat) * f⟩

/-- Line 173: `n_splits = max(1, T // M + (1 if T % M > 0 else 0))`
(timedelta floordiv is the floor of the ratio, `%` the remainder). -/
def nsplits (M T : ℚ) : ℤ :=
  let q := ⌊T / M⌋
  max 1 (q + if 0 < T - M * q then 1 else 0)

/-- Lines 174-194: split a segment into `n_splits` sub-segments.  With a
single split the original segment is processed unchanged; otherwise the
k-th sub-segment lasts `min M (T - k*M)`, carries the time-proportional
share of the distance, and its endpoints are interpolated at the equal
fractions `k/n` and `(k+1)/n`. -/
def splitSegment (M : ℚ) (seg : Seg) : List Seg :=
  let n := nsplits M seg.dur
  if n = 1 then [seg]
  else
    (List.range n.toNat).map fun k : ℕ =>
      let d := min M (seg.dur - (k : ℚ) * M)
      { p1 := lerp seg.p1 seg.p2 ((k : ℚ) / (n : ℚ)),
        p2 := lerp seg.p1 seg.p2 (((k : ℚ) + 1) / (n : ℚ)),
        dur := d, dist := seg.dist * (d / seg.dur) }

/-- The mutable loop state of `calculate_eta_with_bans`: `delays`,
`current_time`, `driving_periods`, `last_ban_zone`, plus a ghost log of
the `(sub_p2, current_time)` argument pairs passed to the per-sub-segment
ban lookup at line 230 (the log records call arguments and affects no
computation). -/
structure SimState where
  delays : List Delay
  time : ℚ
  periods : List Period
  lastBan : Option BanInfo
  queries : List (Point × ℚ)
deriving Repr

/-- The fixed per-run configuration: the ban-area manager and
`max_drive_td` in seconds. -/
structure SimCfg where
  mgr : BanAreaManager
  M : ℚ

/-- Lines 196-223: prune the rolling 24 h window and, if crediting this
sub-segment would exceed `max_drive_td`, insert a rest (delay record with
city `'Rest Stop'`), advance the clock by it and re-prune. -/
def restPhase (cfg : SimCfg) (s : SimState) (sub : Seg) : SimState :=
  let ps := prunePeriods s.time s.periods
  if cfg.M < drivingTime24h ps + sub.dur then
    let rt := restNeeded s.time ps
    { delays := s.delays ++ [fullDelay "Rest Stop" rt s.time (s.time + rt) s.time sub.p2],
      time := s.time + rt,
      periods := prunePeriods (s.time + rt) ps,
      lastBan := s.lastBan, queries := s.queries }
  else { s with periods := ps }

/-- Lines 229-261: the per-sub-segment ban check at `sub_p2` and the
*current* clock, with the `last_ban_zone` dedup; on a new active zone
with positive wait, append a ban delay and jump to the resolved end. -/
def banPhase (cfg : SimCfg) (s : SimState) (sub : Seg) : SimState :=
  match point_in_any_ban_zone_using_manager cfg.mgr sub.p2.lat sub.p2.lon s.time with
  | some z =>
    if some z ≠ s.lastBan then
      let bet := resolveBanEnd s.time z
      let wt := bet - s.time
      if 0 < wt then
        { s with delays := s.delays ++ [fullDelay z.city wt s.time bet s.time sub.p2],
                 time := bet, lastBan := some z }
      else { s with lastBan := some z }
    else { s with lastBan := none }
  | none => { s with lastBan := none }

/-- Lines 196-264, one iteration of the inner `for split_idx` loop:
rest check, the driving-period append of line 226, the ban check of line
230 (logged), the second identical driving-period append of line 262, and
the clock advance of line 263. -/
def subStep (cfg : SimCfg) (s : SimState) (sub : Seg) : SimState :=
  let s1 := restPhase cfg s sub
  let s2 := { s1 with periods := s1.periods ++ [(s1.time, s1.time + sub.dur, sub.dur)],
                      queries := s1.queries ++ [(sub.p2, s1.time)] }
  let s3 := banPhase cfg s2 sub
  { s3 with periods := s3.periods ++ [(s3.time, s3.time + sub.dur, sub.dur)],
            time := s3.time + sub.dur }

/-- The clock value at which line 230 queries the ban index: the entry
time of the sub-segment after any rest insertion, *before* the
sub-segment's duration is credited. -/
def restAdjustedTime (cfg : SimCfg) (s : SimState) (sub : Seg) : ℚ :=
  let ps := prunePeriods s.time s.periods
  if cfg.M < drivingTime24h ps + sub.dur then s.time + restNeeded s.time ps
  else s.time

/-- Lines 266-299: after the sub-segment loop, check `p1` then `p2` at the
(now advanced) clock; on the first hit with positive wait append a full
ban delay, advance, and break.  `last_ban_zone` is not consulted here. -/
def endpointLoop (mgr : BanAreaManager) :
    List Point → ℚ → List Delay → ℚ × List Delay
  | [], t, ds => (t, ds)
  | p :: rest, t, ds =>
    match point_in_any_ban_zone_using_manager mgr p.lat p.lon t with
    | some z =>
      let bet := resolveBanEnd t z
      let wt := bet - t
      if 0 < wt then (bet, ds ++ [fullDelay z.city wt t bet t p])
      else endpointLoop mgr rest t ds
    | none => endpointLoop mgr rest t ds

/-- Lines 308-336: for segments longer than 10 km, sample interior points
every 10 km; the first sample inside an active zone with positive wait
appends a delay dict carrying *only* `city` and `wait`, and breaks.  The
clock is not advanced and `last_ban_zone` is not consulted. -/
def sampleCheck (mgr : BanAreaManager) (p1 p2 : Point) (segDist : ℚ) (t : ℚ) :
    Option Delay :=
  if 10 < segDist then
    let n := ⌊segDist / 10⌋
    (List.range' 1 (n.toNat - 1)).findSome? fun i : ℕ =>
      let p := lerp p1 p2 ((i : ℚ) / (n : ℚ))
      match point_in_any_ban_zone_using_manager mgr p.lat p.lon t with
      | some z =>
        let bet := resolveBanEnd t z
        let wt := bet - t
        if 0 < wt then
          some { city := z.city, wait := wt, ban_start := none, ban_end := none,
                 eta_at_ban := none, lat := none, lon := none,
                 stop_lat := none, stop_lon := none }
        else none
      | none => none
  else none

/-- Lines 162-336, one iteration of the outer segment loop: split, run the
sub-segment loop, the endpoint ban loop, the whole-segment driving-period
append of line 305, then the interior sampling. -/
def segStep (cfg : SimCfg) (s : SimState) (seg : Seg) : SimState :=
  let subs := splitSegment cfg.M seg
  let s1 := subs.foldl (subStep cfg) s
  let ed := endpointLoop cfg.mgr [seg.p1, seg.p2] s1.time s1.delays
  let ds3 := match sampleCheck cfg.mgr seg.p1 seg.p2 seg.dist ed.1 with
             | some d => ed.2 ++ [d]
             | none => ed.2
  { delays := ds3, time := ed.1,
    periods := s1.periods ++ [(ed.1 - seg.dur, ed.1, seg.dur)],
    lastBan := s1.lastBan, queries := s1.queries }

/-- Lines 115-126: the initial loop state. -/
def initState (start_dt : ℚ) : SimState :=
  { delays := [], time := start_dt, periods := [], lastBan := none, queries := [] }

/-- Lines 128-169: the per-segment durations and distances.  With a fixed
speed, `seg_time = timedelta(hours = seg_dist / speed)`; otherwise the
provider's total duration is distributed proportionally to each segment's
haversine share of the total distance (0 when the total is not positive). -/
def tripSegs (hav : Point → Point → ℚ) (route : List Point)
    (vehicle_speed_kmph : Option ℚ) (ors_total_duration : ℚ) : List Seg :=
  let pairs := route.zip route.tail
  let total := (pairs.map fun ab => hav ab.1 ab.2).sum
  pairs.map fun ab =>
    let d := hav ab.1 ab.2
    let T := match vehicle_speed_kmph with
      | some v => 3600 * d / v
      | none => if 0 < total then ors_total_duration * (d / total) else 0
    { p1 := ab.1, p2 := ab.2, dur := T, dist := d }

/-- The final loop state of a whole run. -/
def simFinal (cfg : SimCfg) (start_dt : ℚ) (segs : List Seg) : SimState :=
  segs.foldl (segStep cfg) (initState start_dt)

/-- `strftime('%Y-%m-%d %H:%M')` truncates to the minute; the string
compares exactly like this integer. -/
def fmtMin (t : ℚ) : ℤ := ⌊t / 60⌋

/-- One row of the `schedule` list (lines 337-396).  Fields the Python
code fills with `''` are `none` here. -/
structure ScheduleEvent where
  vehicle_key : Option String
  key : Option String
  event : String
  time : ℤ
  lat : ℚ
  lon : ℚ
  city : String
  wait_minutes : Option ℤ
  ban_arrival : Option ℤ
  ban_departure : Option ℤ
  ban_lat : Option ℚ
  ban_lon : Option ℚ
  ban_city : String
  end_time : Option ℤ
  end_lat : Option ℚ
  end_lon : Option ℚ
deriving DecidableEq, Repr

/-- Lines 337-354: the single start event. -/
def startEvent (vk k : Option String) (start_dt slat slon : ℚ) : ScheduleEvent :=
  { vehicle_key := vk, key := k, event := "start", time := fmtMin start_dt,
    lat := slat, lon := slon, city := "", wait_minutes := none,
    ban_arrival := none, ban_departure := none, ban_lat := none,
    ban_lon := none, ban_city := "", end_time := none, end_lat := none,
    end_lon := none }

/-- Lines 357-376: every delay becomes an event of kind `'ban'`; the dict
lookups `d['eta_at_ban']`, `d['stop_lat']`, `d['stop_lon']` raise
`KeyError` (here: `none`) when the keys are absent.
`wait_minutes` rounds the wait up to whole minutes. -/
def banEvent (vk k : Option String) (d : Delay) : Option ScheduleEvent :=
  match d.eta_at_ban, d.stop_lat, d.stop_lon with
  | some eta, some slat, some slon =>
    some { vehicle_key := vk, key := k, event := "ban", time := fmtMin eta,
           lat := slat, lon := slon, city := d.city,
           wait_minutes := some ⌊(d.wait + 59) / 60⌋,
           ban_arrival := some (fmtMin eta),
           ban_departure := some (fmtMin (eta + d.wait)),
           ban_lat := some slat, ban_lon := some slon, ban_city := d.city,
           end_time := none, end_lat := none, end_lon := none }
  | _, _, _ => none

/-- Lines 378-396: the single end event, at the final clock and at the
*requested* destination coordinates. -/
def endEvent (vk k : Option String) (t elat elon : ℚ) : ScheduleEvent :=
  { vehicle_key := vk, key := k, event := "end", time := fmtMin t,
    lat := elat, lon := elon, city := "", wait_minutes := none,
    ban_arrival := none, ban_departure := none, ban_lat := none,
    ban_lon := none, ban_city := "", end_time := some (fmtMin t),
    end_lat := some elat, end_lon := some elon }

/-- The `for d in delays` translation loop; `none` as soon as one delay
misses a required key. -/
def banEvents (vk k : Option String) : List Delay → Option (List ScheduleEvent)
  | [] => some []
  | d :: ds =>
    match banEvent vk k d, banEvents vk k ds with
    | some e, some es => some (e :: es)
    | _, _ => none

/-- The dict returned at lines 398-403. -/
structure EtaResult where
  eta : ℚ
  schedule : List ScheduleEvent
  delays : List Delay
  route_segments : List Point
deriving DecidableEq, Repr

/-- `calculate_eta_with_bans` (src/eta_estimator.py lines 50-403).
`hav` abstracts `haversine`, `route`/`ors_total_duration` stand for the
routing provider's response, and `ban_radius_km` is carried exactly as in
the Python signature.  The result is `none` when schedule construction
raises. -/
def calculate_eta_with_bans (hav : Point → Point → ℚ) (mgr : BanAreaManager)
    (start_lat start_lon end_lat end_lon start_dt : ℚ)
    (route : List Point) (ors_total_duration : ℚ)
    (vehicle_key key : Option String)
    (ban_radius_km vehicle_speed_kmph : Option ℚ)
    (max_driving_hours : ℚ) : Option EtaResult :=
  let segs := tripSegs hav route vehicle_speed_kmph ors_total_duration
  let fin := simFinal ⟨mgr, max_driving_hours * 3600⟩ start_dt segs
  match banEvents vehicle_key key fin.delays with
  | none => none
  | some evs =>
    some { eta := fin.time,
           schedule := startEvent vehicle_key key start_dt start_lat start_lon ::
             evs ++ [endEvent vehicle_key key fin.time end_lat end_lon],
           delays := fin.delays, route_segments := route }

/-! ### Concrete fixtures used by the per-claim evaluations -/

/-- A catalog with one all-covering polygon for city `X` and one overnight
Monday 22:00-02:00 ban row. -/
def mgrC1 : BanAreaManager :=
  ⟨[("X", fun _ => true)], [⟨"X", "Monday", ⟨22, 0, 0⟩, ⟨2, 0, 0⟩⟩]⟩

/-- An empty catalog. -/
def mgrNone : BanAreaManager := ⟨[], []⟩

def cfgNone : SimCfg := ⟨mgrNone, 36000⟩

/-- 4 km between every pair of points. -/
def havFour : Point → Point → ℚ := fun _ _ => 4

def routeTwo : List Point := [⟨0, 0⟩, ⟨1, 0⟩]

/-- 6 km between every pair of points. -/
def havSix : Point → Point → ℚ := fun _ _ => 6

def routeThree : List Point := [⟨0, 0⟩, ⟨1, 0⟩, ⟨2, 0⟩]

/-- City `X` covers longitudes 5..15; Monday 06:00-20:00 ban. -/
def mgrX : BanAreaManager :=
  ⟨[("X", fun p => decide (5 ≤ p.lon ∧ p.lon ≤ 15))],
   [⟨"X", "Monday", ⟨6, 0, 0⟩, ⟨20, 0, 0⟩⟩]⟩

/-- 20 km into the long first segment, 2 km into the short second one. -/
def havX : Point → Point → ℚ := fun _ b => if b.lon = 12 then 2 else 20

/-- A long segment whose 10-km interior sample at lon 10 lies in `X`,
followed by a short segment ending at lon 12, also in `X`. -/
def routeX : List Point := [⟨0, 0⟩, ⟨20, 0⟩, ⟨12, 0⟩]

/-- A 25-hour segment (90000 s), against the 10-hour threshold. -/
def segC8 : Seg := ⟨⟨0, 0⟩, ⟨5, 5⟩, 90000, 100⟩

/-- A one-hour sub-segment, for the query-time evaluation. -/
def subE : Seg := ⟨⟨0, 0⟩, ⟨1, 1⟩, 3600, 1⟩

end Bantime

namespace Bantime

/-! ### Basic facts about the rest computation -/

lemma restNeeded_of_ne (now : ℚ) {ps : List Period} (h : ps ≠ []) :
    restNeeded now ps = max (oldestStart ps + 86400 - now) 50400 := by
  unfold restNeeded
  dsimp only
  rw [if_neg h]
  rcases lt_or_le (oldestStart ps + 86400 - now) 50400 with hlt | hle
  · rw [if_pos hlt, max_eq_right hlt.le]
  · rw [if_neg (not_lt.2 hle), max_eq_left hle]

lemma restNeeded_of_nil (now : ℚ) : restNeeded now [] = 50400 := by
  unfold restNeeded
  norm_num

lemma restNeeded_ge (now : ℚ) (ps : List Period) : 50400 ≤ restNeeded now ps := by
  rcases eq_or_ne ps [] with h | h
  · subst h
    rw [restNeeded_of_nil]
  · rw [restNeeded_of_ne now h]
    exact le_max_right _ _

/-! ### The time/delay invariant threaded through the simulation loop:
the clock only moves forward, every populated `eta_at_ban` lies between
the start instant and the current clock, and the `eta_at_ban` values are
appended in nondecreasing order. -/

def timeInv (lo : ℚ) (ds : List Delay) (t : ℚ) : Prop :=
  lo ≤ t ∧
  (∀ d ∈ ds, ∀ e, d.eta_at_ban = some e → lo ≤ e ∧ e ≤ t) ∧
  ds.Pairwise fun a b => ∀ ea eb, a.eta_at_ban = some ea → b.eta_at_ban = some eb → ea ≤ eb

lemma timeInv_mono {lo : ℚ} {ds : List Delay} {t u : ℚ}
    (h : timeInv lo ds t) (ht : t ≤ u) : timeInv lo ds u := by
  obtain ⟨h1, h2, h3⟩ := h
  exact ⟨h1.trans ht, fun d hd e he => ⟨(h2 d hd e he).1, (h2 d hd e he).2.trans ht⟩, h3⟩

lemma timeInv_append_some {lo : ℚ} {ds : List Delay} {t u : ℚ} {d : Delay}
    (h : timeInv lo ds t) (hd : d.eta_at_ban = some t) (ht : t ≤ u) :
    timeInv lo (ds ++ [d]) u := by
  obtain ⟨h1, h2, h3⟩ := h
  refine ⟨h1.trans ht, ?_, ?_⟩
  · intro x hx e he
    rcases List.mem_append.1 hx with hx | hx
    · exact ⟨(h2 x hx e he).1, (h2 x hx e he).2.trans ht⟩
    · rcases List.mem_singleton.1 hx with rfl
      rw [hd] at he
      injection he with he
      subst he
      exact ⟨h1, ht⟩
  · rw [List.pairwise_append]
    refine ⟨h3, List.pairwise_singleton _ _, ?_⟩
    intro a ha b hb ea eb hea heb
    rcases List.mem_singleton.1 hb with rfl
    rw [hd] at heb
    injection heb with heb
    subst heb
    exact (h2 a ha ea hea).2

lemma timeInv_append_none {lo : ℚ} {ds : List Delay} {t u : ℚ} {d : Delay}
    (h : timeInv lo ds t) (hd : d.eta_at_ban = none) (ht : t ≤ u) :
    timeInv lo (ds ++ [d]) u := by
  obtain ⟨h1, h2, h3⟩ := h
  refine ⟨h1.trans ht, ?_, ?_⟩
  · intro x hx e he
    rcases List.mem_append.1 hx with hx | hx
    · exact ⟨(h2 x hx e he).1, (h2 x hx e he).2.trans ht⟩
    · rcases List.mem_singleton.1 hx with rfl
      rw [hd] at he
      exact absurd he (by simp)
  · rw [List.pairwise_append]
    refine ⟨h3, List.pairwise_singleton _ _, ?_⟩
    intro a ha b hb ea eb hea heb
    rcases List.mem_singleton.1 hb with rfl
    rw [hd] at heb
    exact absurd heb (by simp)

/-! ### Per-phase preservation lemmas -/

lemma restPhase_queries (cfg : SimCfg) (s : SimState) (sub : Seg) :
    (restPhase cfg s sub).queries = s.queries := by
  unfold restPhase
  dsimp only
  split <;> rfl

lemma restPhase_time (cfg : SimCfg) (s : SimState) (sub : Seg) :
    (restPhase cfg s sub).time = restAdjustedTime cfg s sub := by
  unfold restPhase restAdjustedTime
  dsimp only
  split <;> rfl

lemma restPhase_time_ge (cfg : SimCfg) (s : SimState) (sub : Seg) :
    s.time ≤ (restPhase cfg s sub).time := by
  unfold restPhase
  dsimp only
  split
  · dsimp only
    have := restNeeded_ge s.time (prunePeriods s.time s.periods)
    linarith
  · exact le_refl _

lemma restPhase_inv {lo : ℚ} (cfg : SimCfg) {s : SimState} (sub : Seg)
    (h : timeInv lo s.delays s.time) :
    timeInv lo (restPhase cfg s sub).delays (restPhase cfg s sub).time := by
  unfold restPhase
  dsimp only
  split
  · dsimp only
    have hge := restNeeded_ge s.time (prunePeriods s.time s.periods)
    exact timeInv_append_some h rfl (by linarith)
  · exact h

lemma banPhase_queries (cfg : SimCfg) (s : SimState) (sub : Seg) :
    (banPhase cfg s sub).queries = s.queries := by
  unfold banPhase
  rcases point_in_any_ban_zone_using_manager cfg.mgr sub.p2.lat sub.p2.lon s.time with _ | z
  · rfl
  · dsimp only
    split
    · split <;> rfl
    · rfl

lemma banPhase_time_ge (cfg : SimCfg) (s : SimState) (sub : Seg) :
    s.time ≤ (banPhase cfg s sub).time := by
  unfold banPhase
  rcases point_in_any_ban_zone_using_manager cfg.mgr sub.p2.lat sub.p2.lon s.time with _ | z
  · exact le_refl _
  · dsimp only
    split
    · split
      · dsimp only
        linarith [lt_of_lt_of_le (by assumption : (0:ℚ) < resolveBanEnd s.time z - s.time) (le_refl _)]
      · exact le_refl _
    · exact le_refl _

lemma banPhase_inv {lo : ℚ} (cfg : SimCfg) {s : SimState} (sub : Seg)
    (h : timeInv lo s.delays s.time) :
    timeInv lo (banPhase cfg s sub).delays (banPhase cfg s sub).time := by
  unfold banPhase
  rcases point_in_any_ban_zone_using_manager cfg.mgr sub.p2.lat sub.p2.lon s.time with _ | z
  · exact h
  · dsimp only
    split
    · split
      · dsimp only
        exact timeInv_append_some h rfl (by linarith [(by assumption : (0:ℚ) < resolveBanEnd s.time z - s.time)])
      · exact h
    · exact h

lemma subStep_inv {lo : ℚ} (cfg : SimCfg) {s : SimState} {sub : Seg}
    (hdur : 0 ≤ sub.dur) (h : timeInv lo s.delays s.time) :
    timeInv lo (subStep cfg s sub).delays (subStep cfg s sub).time ∧
      s.time ≤ (subStep cfg s sub).time := by
  unfold subStep
  dsimp only
  have h1 := restPhase_inv cfg sub h
  have ht1 := restPhase_time_ge cfg s sub
  have h2 := banPhase_inv cfg sub (s := { restPhase cfg s sub with
    periods := (restPhase cfg s sub).periods ++
      [((restPhase cfg s sub).time, (restPhase cfg s sub).time + sub.dur, sub.dur)],
    queries := (restPhase cfg s sub).queries ++ [(sub.p2, (restPhase cfg s sub).time)] }) h1
  have ht2 := banPhase_time_ge cfg { restPhase cfg s sub with
    periods := (restPhase cfg s sub).periods ++
      [((restPhase cfg s sub).time, (restPhase cfg s sub).time + sub.dur, sub.dur)],
    queries := (restPhase cfg s sub).queries ++ [(sub.p2, (restPhase cfg s sub).time)] } sub
  constructor
  · exact timeInv_mono h2 (by linarith)
  · dsimp only at ht2
    linarith

lemma foldl_subStep_inv {lo : ℚ} (cfg : SimCfg) :
    ∀ subs : List Seg, (∀ x ∈ subs, 0 ≤ x.dur) → ∀ s : SimState,
      timeInv lo s.delays s.time →
      timeInv lo ((subs.foldl (subStep cfg) s).delays) ((subs.foldl (subStep cfg) s).time) ∧
        s.time ≤ (subs.foldl (subStep cfg) s).time := by
  intro subs
  induction subs with
  | nil => exact fun _ s h => ⟨h, le_refl _⟩
  | cons a t ih =>
    intro hd s h
    simp only [List.foldl_cons]
    have h1 := subStep_inv cfg (hd a (List.mem_cons_self a t)) h
    have h2 := ih (fun x hx => hd x (List.mem_cons_of_mem _ hx)) _ h1.1
    exact ⟨h2.1, h1.2.trans h2.2⟩

lemma endpointLoop_inv {lo : ℚ} (mgr : BanAreaManager) :
    ∀ (pts : List Point) (t : ℚ) (ds : List Delay), timeInv lo ds t →
      timeInv lo (endpointLoop mgr pts t ds).2 (endpointLoop mgr pts t ds).1 ∧
        t ≤ (endpointLoop mgr pts t ds).1 := by
  intro pts
  induction pts with
  | nil => exact fun t ds h => ⟨h, le_refl _⟩
  | cons p rest ih =>
    intro t ds h
    rcases hz : point_in_any_ban_zone_using_manager mgr p.lat p.lon t with _ | z
    · simpa only [endpointLoop, hz] using ih t ds h
    · simp only [endpointLoop, hz]
      split
      · dsimp only
        refine ⟨timeInv_append_some h rfl ?_, ?_⟩ <;>
          linarith [(by assumption : (0:ℚ) < resolveBanEnd t z - t)]
      · exact ih t ds h

end Bantime


namespace Bantime

/-! ### Arithmetic facts about the segment-splitting count -/

lemma nsplits_ge_one (M T : ℚ) : 1 ≤ nsplits M T := by
  unfold nsplits
  exact le_max_left _ _

lemma floor_mul_le {M T : ℚ} (hM : 0 < M) : ((⌊T / M⌋ : ℤ) : ℚ) * M ≤ T := by
  rw [← le_div_iff₀ hM]
  exact Int.floor_le _

lemma lt_floor_succ_mul {M T : ℚ} (hM : 0 < M) : T < (((⌊T / M⌋ : ℤ) : ℚ) + 1) * M := by
  rw [← div_lt_iff₀ hM]
  exact Int.lt_floor_add_one (T / M)

lemma nsplits_mul_ge {M T : ℚ} (hM : 0 < M) (hT : 0 ≤ T) :
    T ≤ ((nsplits M T : ℤ) : ℚ) * M := by
  have hfl : ((⌊T / M⌋ : ℤ) : ℚ) * M ≤ T := floor_mul_le hM
  have hfu : T < (((⌊T / M⌋ : ℤ) : ℚ) + 1) * M := lt_floor_succ_mul hM
  have hq0 : (0 : ℤ) ≤ ⌊T / M⌋ := Int.floor_nonneg.2 (div_nonneg hT hM.le)
  unfold nsplits
  dsimp only
  split
  · have hmax : max 1 (⌊T / M⌋ + 1) = ⌊T / M⌋ + 1 := max_eq_right (by omega)
    rw [hmax]
    push_cast
    linarith
  · have hle : (⌊T / M⌋ : ℤ) ≤ max 1 (⌊T / M⌋ + 0) := by omega
    have hle2 : ((⌊T / M⌋ : ℤ) : ℚ) ≤ ((max 1 (⌊T / M⌋ + 0) : ℤ) : ℚ) := by
      exact_mod_cast hle
    have hTle : T ≤ M * ((⌊T / M⌋ : ℤ) : ℚ) := by
      have := not_lt.1 (by assumption : ¬ 0 < T - M * ((⌊T / M⌋ : ℤ) : ℚ))
      linarith
    calc T ≤ M * ((⌊T / M⌋ : ℤ) : ℚ) := hTle
      _ = ((⌊T / M⌋ : ℤ) : ℚ) * M := by ring
      _ ≤ ((max 1 (⌊T / M⌋ + 0) : ℤ) : ℚ) * M := mul_le_mul_of_nonneg_right hle2 hM.le

lemma nsplits_lower {M T : ℚ} (hM : 0 < M) (hT : 0 < T) :
    (((nsplits M T : ℤ) : ℚ) - 1) * M < T := by
  have hfl : ((⌊T / M⌋ : ℤ) : ℚ) * M ≤ T := floor_mul_le hM
  have hq0 : (0 : ℤ) ≤ ⌊T / M⌋ := Int.floor_nonneg.2 (div_nonneg hT.le hM.le)
  unfold nsplits
  dsimp only
  split
  · have hmax : max 1 (⌊T / M⌋ + 1) = ⌊T / M⌋ + 1 := max_eq_right (by omega)
    rw [hmax]
    push_cast
    have := (by assumption : 0 < T - M * ((⌊T / M⌋ : ℤ) : ℚ))
    linarith
  · have hTle : T ≤ M * ((⌊T / M⌋ : ℤ) : ℚ) := by
      have := not_lt.1 (by assumption : ¬ 0 < T - M * ((⌊T / M⌋ : ℤ) : ℚ))
      linarith
    have hqpos : (0 : ℤ) < ⌊T / M⌋ := by
      have : (0 : ℚ) < ((⌊T / M⌋ : ℤ) : ℚ) := by nlinarith
      exact_mod_cast this
    have hmax : max 1 (⌊T / M⌋ + 0) = ⌊T / M⌋ + 0 := max_eq_right (by omega)
    rw [hmax]
    push_cast
    nlinarith

lemma nsplits_eq_ceil {M T : ℚ} (hM : 0 < M) (hT : 0 < T) :
    nsplits M T = ⌈T / M⌉ := by
  have h1 := nsplits_lower hM hT
  have h2 := nsplits_mul_ge hM hT.le
  symm
  rw [Int.ceil_eq_iff]
  constructor
  · rw [lt_div_iff₀ hM]
    linarith
  · rw [div_le_iff₀ hM]
    exact h2

lemma nsplits_ne_one {M T : ℚ} (hM : 0 < M) (hMT : M < T) : nsplits M T ≠ 1 := by
  have hT : 0 < T := hM.trans hMT
  rw [nsplits_eq_ceil hM hT]
  have hd : (1 : ℚ) < T / M := (one_lt_div hM).2 hMT
  have h2 : (1 : ℤ) < ⌈T / M⌉ := by
    have := lt_of_lt_of_le hd (Int.le_ceil (T / M))
    exact_mod_cast this
  omega

lemma splitSegment_dur_nonneg {M : ℚ} (hM : 0 < M) {seg : Seg} (hT : 0 ≤ seg.dur) :
    ∀ x ∈ splitSegment M seg, 0 ≤ x.dur := by
  intro x hx
  unfold splitSegment at hx
  dsimp only at hx
  by_cases h1 : nsplits M seg.dur = 1
  · rw [if_pos h1] at hx
    rcases List.mem_singleton.1 hx with rfl
    exact hT
  · rw [if_neg h1] at hx
    rcases List.mem_map.1 hx with ⟨k, hk, rfl⟩
    dsimp only
    have hT0 : 0 < seg.dur := by
      rcases lt_or_eq_of_le hT with h | h
      · exact h
      · exfalso
        apply h1
        unfold nsplits
        rw [← h]
        norm_num
    have hkn : (k : ℤ) < nsplits M seg.dur := by
      have hmem := List.mem_range.1 hk
      have hge := nsplits_ge_one M seg.dur
      omega
    have hcast : (k : ℚ) ≤ ((nsplits M seg.dur : ℤ) : ℚ) - 1 := by
      have hk1 : (k : ℤ) ≤ nsplits M seg.dur - 1 := by omega
      exact_mod_cast hk1
    have hlow := nsplits_lower hM hT0
    refine le_min hM.le ?_
    have hmul : (k : ℚ) * M ≤ (((nsplits M seg.dur : ℤ) : ℚ) - 1) * M :=
      mul_le_mul_of_nonneg_right hcast hM.le
    linarith

end Bantime

namespace Bantime

/-! ### The interior-sampling record and the segment-level invariant -/

lemma findSome?_eq_some_ex {α β : Type} {f : α → Option β} :
    ∀ (l : List α) (b : β), l.findSome? f = some b → ∃ a, f a = some b := by
  intro l
  induction l with
  | nil => intro b h; simp [List.findSome?] at h
  | cons a t ih =>
    intro b h
    rcases ha : f a with _ | c
    · simp only [List.findSome?_cons, ha] at h
      exact ih b h
    · simp only [List.findSome?_cons, ha] at h
      exact ⟨a, ha.trans (by rw [h])⟩

lemma sampleCheck_fields {mgr : BanAreaManager} {p1 p2 : Point} {D t : ℚ} {d : Delay}
    (h : sampleCheck mgr p1 p2 D t = some d) :
    d.ban_start = none ∧ d.ban_end = none ∧ d.eta_at_ban = none ∧
      d.lat = none ∧ d.lon = none ∧ d.stop_lat = none ∧ d.stop_lon = none := by
  unfold sampleCheck at h
  split at h
  · dsimp only at h
    rcases findSome?_eq_some_ex _ _ h with ⟨i, hi⟩
    split at hi
    · split at hi
      · injection hi with hi
        subst hi
        exact ⟨rfl, rfl, rfl, rfl, rfl, rfl, rfl⟩
      · exact absurd hi (by simp)
    · exact absurd hi (by simp)
  · exact absurd h (by simp)

lemma segStep_inv {lo : ℚ} (cfg : SimCfg) {s : SimState} {seg : Seg}
    (hsub : ∀ x ∈ splitSegment cfg.M seg, 0 ≤ x.dur) (h : timeInv lo s.delays s.time) :
    timeInv lo (segStep cfg s seg).delays (segStep cfg s seg).time ∧
      s.time ≤ (segStep cfg s seg).time := by
  unfold segStep
  dsimp only
  have h1 := foldl_subStep_inv cfg (splitSegment cfg.M seg) hsub s h
  have h2 := endpointLoop_inv cfg.mgr [seg.p1, seg.p2]
    ((splitSegment cfg.M seg).foldl (subStep cfg) s).time
    ((splitSegment cfg.M seg).foldl (subStep cfg) s).delays h1.1
  rcases hs : sampleCheck cfg.mgr seg.p1 seg.p2 seg.dist
      (endpointLoop cfg.mgr [seg.p1, seg.p2]
        ((splitSegment cfg.M seg).foldl (subStep cfg) s).time
        ((splitSegment cfg.M seg).foldl (subStep cfg) s).delays).1 with _ | d
  · dsimp only
    exact ⟨h2.1, le_trans h1.2 h2.2⟩
  · dsimp only
    refine ⟨timeInv_append_none h2.1 (sampleCheck_fields hs).2.2.1 (le_refl _), ?_⟩
    exact le_trans h1.2 h2.2

lemma foldl_segStep_inv {lo : ℚ} (cfg : SimCfg) (hM : 0 < cfg.M) :
    ∀ segs : List Seg, (∀ x ∈ segs, 0 ≤ x.dur) → ∀ s : SimState,
      timeInv lo s.delays s.time →
      timeInv lo ((segs.foldl (segStep cfg) s).delays) ((segs.foldl (segStep cfg) s).time) ∧
        s.time ≤ (segs.foldl (segStep cfg) s).time := by
  intro segs
  induction segs with
  | nil => exact fun _ s h => ⟨h, le_refl _⟩
  | cons a t ih =>
    intro hd s h
    simp only [List.foldl_cons]
    have h1 := segStep_inv cfg
      (splitSegment_dur_nonneg hM (hd a (List.mem_cons_self a t))) h
    have h2 := ih (fun x hx => hd x (List.mem_cons_of_mem _ hx)) _ h1.1
    exact ⟨h2.1, h1.2.trans h2.2⟩

lemma simFinal_inv {cfg : SimCfg} (hM : 0 < cfg.M) {segs : List Seg}
    (hsegs : ∀ x ∈ segs, 0 ≤ x.dur) (sdt : ℚ) :
    timeInv sdt (simFinal cfg sdt segs).delays (simFinal cfg sdt segs).time := by
  have hinit : timeInv sdt (initState sdt).delays (initState sdt).time := by
    refine ⟨le_refl _, ?_, ?_⟩ <;> simp [initState]
  exact (foldl_segStep_inv cfg hM segs hsegs _ hinit).1

lemma tripSegs_dur_nonneg {hav : Point → Point → ℚ} {route : List Point}
    {vs : Option ℚ} {ors : ℚ} (hhav : ∀ a b, 0 ≤ hav a b)
    (hvs : ∀ v, vs = some v → 0 < v) (hors : 0 ≤ ors) :
    ∀ seg ∈ tripSegs hav route vs ors, 0 ≤ seg.dur := by
  intro seg hseg
  unfold tripSegs at hseg
  dsimp only at hseg
  rcases List.mem_map.1 hseg with ⟨ab, _, rfl⟩
  dsimp only
  cases hv : vs with
  | some v =>
    dsimp only
    exact div_nonneg (mul_nonneg (by norm_num) (hhav _ _)) (hvs v hv).le
  | none =>
    dsimp only
    split
    · refine mul_nonneg hors (div_nonneg (hhav _ _) ?_)
      linarith [(by assumption :
        (0 : ℚ) < ((route.zip route.tail).map fun ab => hav ab.1 ab.2).sum)]
    · exact le_refl _

end Bantime

namespace Bantime

/-! ### From delays to schedule events -/

lemma fmtMin_mono {a b : ℚ} (h : a ≤ b) : fmtMin a ≤ fmtMin b := by
  unfold fmtMin
  exact Int.floor_le_floor (by linarith)

lemma banEvent_some {vk k : Option String} {d : Delay} {e : ScheduleEvent}
    (h : banEvent vk k d = some e) :
    ∃ t, d.eta_at_ban = some t ∧ e.time = fmtMin t ∧ e.event = "ban" ∧ e.city = d.city := by
  rcases h1 : d.eta_at_ban with _ | eta <;>
    rcases h2 : d.stop_lat with _ | sl <;>
      rcases h3 : d.stop_lon with _ | so <;>
        simp only [banEvent, h1, h2, h3] at h <;>
          first
            | exact Option.noConfusion h
            | (injection h with h
               subst h
               exact ⟨eta, rfl, rfl, rfl, rfl⟩)

lemma banEvents_forall2 {vk k : Option String} :
    ∀ (ds : List Delay) (evs : List ScheduleEvent), banEvents vk k ds = some evs →
      List.Forall₂ (fun d e => ∃ t, d.eta_at_ban = some t ∧ e.time = fmtMin t ∧
        e.event = "ban" ∧ e.city = d.city) ds evs := by
  intro ds
  induction ds with
  | nil =>
    intro evs h
    simp only [banEvents] at h
    injection h with h
    subst h
    exact List.Forall₂.nil
  | cons d t ih =>
    intro evs h
    simp only [banEvents] at h
    rcases h1 : banEvent vk k d with _ | e
    · rw [h1] at h
      exact absurd h (by simp)
    · rw [h1] at h
      rcases h2 : banEvents vk k t with _ | es
      · rw [h2] at h
        exact absurd h (by simp)
      · rw [h2] at h
        dsimp only at h
        injection h with h
        subst h
        exact List.Forall₂.cons (banEvent_some h1) (ih _ h2)

lemma banEvents_none_of_mem {vk k : Option String} :
    ∀ {ds : List Delay} {d : Delay}, d ∈ ds → d.eta_at_ban = none →
      banEvents vk k ds = none := by
  intro ds
  induction ds with
  | nil =>
    intro d hd _
    simp at hd
  | cons a t ih =>
    intro d hd he
    rcases List.mem_cons.1 hd with rfl | hd
    · have hnone : banEvent vk k d = none := by
        simp [banEvent, he]
      simp only [banEvents, hnone]
    · have hnone := ih hd he
      simp only [banEvents, hnone]
      cases banEvent vk k a <;> rfl

lemma forall2_exists_left {α β : Type} {R : α → β → Prop} :
    ∀ {l1 : List α} {l2 : List β}, List.Forall₂ R l1 l2 → ∀ b ∈ l2, ∃ a ∈ l1, R a b := by
  intro l1 l2 h
  induction h with
  | nil =>
    intro b hb
    simp at hb
  | cons hab _ ih =>
    intro b hb
    rcases List.mem_cons.1 hb with rfl | hb
    · exact ⟨_, List.mem_cons_self _ _, hab⟩
    · rcases ih b hb with ⟨a, ha, hr⟩
      exact ⟨a, List.mem_cons_of_mem _ ha, hr⟩

lemma evs_pairwise_time {ds : List Delay} {evs : List ScheduleEvent}
    (h2 : List.Forall₂ (fun d e => ∃ t, d.eta_at_ban = some t ∧ e.time = fmtMin t ∧
      e.event = "ban" ∧ e.city = d.city) ds evs)
    (hp : ds.Pairwise fun a b =>
      ∀ ea eb, a.eta_at_ban = some ea → b.eta_at_ban = some eb → ea ≤ eb) :
    evs.Pairwise fun a b => a.time ≤ b.time := by
  revert hp
  induction h2 with
  | nil =>
    intro _
    exact List.Pairwise.nil
  | cons hab htl ih =>
    intro hp
    rw [List.pairwise_cons] at hp ⊢
    refine ⟨?_, ih hp.2⟩
    intro e2 he2
    rcases forall2_exists_left htl e2 he2 with ⟨d2, hd2, t2, ht2, htime2, _, _⟩
    rcases hab with ⟨t1, ht1, htime1, _, _⟩
    rw [htime1, htime2]
    exact fmtMin_mono (hp.1 d2 hd2 t1 t2 ht1 ht2)

lemma calculate_schedule_pairwise
    {hav : Point → Point → ℚ} {mgr : BanAreaManager}
    {slat slon elat elon sdt : ℚ} {route : List Point} {ors : ℚ}
    {vk k : Option String} {br vs : Option ℚ} {mdh : ℚ} {r : EtaResult}
    (hhav : ∀ a b, 0 ≤ hav a b) (hvs : ∀ v, vs = some v → 0 < v)
    (hors : 0 ≤ ors) (hM : 0 < mdh)
    (hr : calculate_eta_with_bans hav mgr slat slon elat elon sdt route ors
      vk k br vs mdh = some r) :
    r.schedule.Pairwise fun a b => a.time ≤ b.time := by
  have hM' : (0 : ℚ) < mdh * 3600 := mul_pos hM (by norm_num)
  have hinv : timeInv sdt
      (simFinal ⟨mgr, mdh * 3600⟩ sdt (tripSegs hav route vs ors)).delays
      (simFinal ⟨mgr, mdh * 3600⟩ sdt (tripSegs hav route vs ors)).time :=
    simFinal_inv hM' (tripSegs_dur_nonneg hhav hvs hors) sdt
  simp only [calculate_eta_with_bans] at hr
  rcases hbe : banEvents vk k
      (simFinal ⟨mgr, mdh * 3600⟩ sdt (tripSegs hav route vs ors)).delays with _ | evs
  · rw [hbe] at hr
    exact absurd hr (by simp)
  · rw [hbe] at hr
    dsimp only at hr
    injection hr with hr
    subst hr
    show List.Pairwise (fun a b => a.time ≤ b.time)
      (startEvent vk k sdt slat slon :: evs ++
        [endEvent vk k (simFinal ⟨mgr, mdh * 3600⟩ sdt (tripSegs hav route vs ors)).time
          elat elon])
    have hf2 := banEvents_forall2 _ _ hbe
    obtain ⟨hlo, hbound, hpw⟩ := hinv
    rw [List.pairwise_append]
    refine ⟨?_, List.pairwise_singleton _ _, ?_⟩
    · rw [List.pairwise_cons]
      refine ⟨?_, evs_pairwise_time hf2 hpw⟩
      intro b hb
      rcases forall2_exists_left hf2 b hb with ⟨d2, hd2, t2, ht2, htime2, _, _⟩
      rw [htime2]
      exact fmtMin_mono ((hbound d2 hd2 t2 ht2).1)
    · intro a ha b hb
      rcases List.mem_singleton.1 hb with rfl
      rcases List.mem_cons.1 ha with rfl | ha
      · exact fmtMin_mono hlo
      · rcases forall2_exists_left hf2 a ha with ⟨d2, hd2, t2, ht2, htime2, _, _⟩
        rw [htime2]
        exact fmtMin_mono ((hbound d2 hd2 t2 ht2).2)

end Bantime

namespace Bantime

/-! ### Exact accounting of the segment split -/

lemma list_sum_map_mul (c : ℚ) (f : ℕ → ℚ) (l : List ℕ) :
    (l.map fun x => c * f x).sum = c * (l.map f).sum := by
  induction l with
  | nil => simp
  | cons a t ih => simp [ih, mul_add]

lemma split_sum {M : ℚ} (hM : 0 < M) :
    ∀ (n : ℕ) (T : ℚ), (n : ℚ) * M < T → T ≤ ((n : ℚ) + 1) * M →
      ((List.range (n + 1)).map fun k : ℕ => min M (T - (k : ℚ) * M)).sum = T := by
  intro n
  induction n with
  | zero =>
    intro T h1 h2
    have hr1 : List.range 1 = [0] := rfl
    rw [hr1]
    simp only [List.map_cons, List.map_nil, List.sum_cons, List.sum_nil,
      Nat.cast_zero, zero_mul, sub_zero, add_zero]
    rw [min_eq_right (by push_cast at h2; linarith)]
  | succ m ih =>
    intro T h1 h2
    rw [List.range_succ_eq_map]
    simp only [List.map_cons, List.map_map, List.sum_cons, Nat.cast_zero, zero_mul, sub_zero]
    have hfun : ((fun k : ℕ => min M (T - (k : ℚ) * M)) ∘ Nat.succ) =
        fun k : ℕ => min M ((T - M) - (k : ℚ) * M) := by
      funext k
      simp only [Function.comp, Nat.cast_succ]
      congr 1
      ring
    rw [hfun]
    have hMle : M ≤ T := by
      push_cast at h1
      nlinarith [Nat.cast_nonneg (α := ℚ) m]
    rw [min_eq_left hMle]
    have hih := ih (T - M) (by push_cast at h1 ⊢; nlinarith) (by push_cast at h2 ⊢; nlinarith)
    rw [hih]
    ring
end Bantime

namespace Bantime

lemma splitSegment_eq {M : ℚ} {seg : Seg} (hM : 0 < M) (hMT : M < seg.dur) :
    splitSegment M seg = (List.range (nsplits M seg.dur).toNat).map fun k : ℕ =>
      { p1 := lerp seg.p1 seg.p2 ((k : ℚ) / ((nsplits M seg.dur : ℤ) : ℚ)),
        p2 := lerp seg.p1 seg.p2 (((k : ℚ) + 1) / ((nsplits M seg.dur : ℤ) : ℚ)),
        dur := min M (seg.dur - (k : ℚ) * M),
        dist := seg.dist * (min M (seg.dur - (k : ℚ) * M) / seg.dur) } := by
  unfold splitSegment
  dsimp only
  rw [if_neg (nsplits_ne_one hM hMT)]

lemma nsplits_toNat_cast (M T : ℚ) :
    (((nsplits M T).toNat : ℕ) : ℚ) = ((nsplits M T : ℤ) : ℚ) := by
  have h1 := nsplits_ge_one M T
  have h2 : ((nsplits M T).toNat : ℤ) = nsplits M T := Int.toNat_of_nonneg (by omega)
  exact_mod_cast h2

lemma splitSegment_range_sum {M T : ℚ} (hM : 0 < M) (hMT : M < T) :
    ((List.range (nsplits M T).toNat).map fun k : ℕ => min M (T - (k : ℚ) * M)).sum = T := by
  have hT : 0 < T := hM.trans hMT
  have h1 := nsplits_ge_one M T
  have hN : (nsplits M T).toNat = ((nsplits M T).toNat - 1) + 1 := by omega
  have hcast : (((nsplits M T).toNat - 1 : ℕ) : ℚ) = ((nsplits M T : ℤ) : ℚ) - 1 := by
    have h2 : (((nsplits M T).toNat - 1 : ℕ) : ℤ) = nsplits M T - 1 := by omega
    exact_mod_cast h2
  rw [hN]
  apply split_sum hM
  · rw [hcast]
    exact nsplits_lower hM hT
  · rw [hcast]
    have := nsplits_mul_ge hM hT.le
    linarith [this]

lemma splitSegment_sum_dur {M : ℚ} {seg : Seg} (hM : 0 < M) (hMT : M < seg.dur) :
    ((splitSegment M seg).map fun x => x.dur).sum = seg.dur := by
  rw [splitSegment_eq hM hMT, List.map_map]
  exact splitSegment_range_sum hM hMT

lemma splitSegment_sum_dist {M : ℚ} {seg : Seg} (hM : 0 < M) (hMT : M < seg.dur) :
    ((splitSegment M seg).map fun x => x.dist).sum = seg.dist := by
  rw [splitSegment_eq hM hMT, List.map_map]
  have hT : 0 < seg.dur := hM.trans hMT
  have hcomp : ((fun x : Seg => x.dist) ∘ (fun k : ℕ =>
      ({ p1 := lerp seg.p1 seg.p2 ((k : ℚ) / ((nsplits M seg.dur : ℤ) : ℚ)),
         p2 := lerp seg.p1 seg.p2 (((k : ℚ) + 1) / ((nsplits M seg.dur : ℤ) : ℚ)),
         dur := min M (seg.dur - (k : ℚ) * M),
         dist := seg.dist * (min M (seg.dur - (k : ℚ) * M) / seg.dur) } : Seg))) =
      fun k : ℕ => seg.dist / seg.dur * min M (seg.dur - (k : ℚ) * M) := by
    funext k
    simp only [Function.comp]
    ring
  rw [hcomp, list_sum_map_mul, splitSegment_range_sum hM hMT]
  exact div_mul_cancel₀ seg.dist hT.ne'

lemma splitSegment_dur_le {M : ℚ} {seg : Seg} (hM : 0 < M) (hMT : M < seg.dur) :
    ∀ x ∈ splitSegment M seg, x.dur ≤ M := by
  intro x hx
  rw [splitSegment_eq hM hMT] at hx
  rcases List.mem_map.1 hx with ⟨k, _, rfl⟩
  exact min_le_left _ _

lemma splitSegment_get {M : ℚ} {seg : Seg} (hM : 0 < M) (hMT : M < seg.dur)
    (k : ℕ) (hk : k < (splitSegment M seg).length) :
    (splitSegment M seg)[k] =
      { p1 := lerp seg.p1 seg.p2 ((k : ℚ) / ((splitSegment M seg).length : ℚ)),
        p2 := lerp seg.p1 seg.p2 (((k : ℚ) + 1) / ((splitSegment M seg).length : ℚ)),
        dur := min M (seg.dur - (k : ℚ) * M),
        dist := seg.dist * (min M (seg.dur - (k : ℚ) * M) / seg.dur) } := by
  have hlen : (((splitSegment M seg).length : ℕ) : ℚ) = ((nsplits M seg.dur : ℤ) : ℚ) := by
    rw [splitSegment_eq hM hMT, List.length_map, List.length_range]
    exact nsplits_toNat_cast M seg.dur
  rw [hlen]
  simp only [splitSegment_eq hM hMT, List.getElem_map, List.getElem_range]

end Bantime

namespace Bantime

/-! ### The claims -/

/-- C1: the spec's time-window matcher is claimed to report an overnight
window (`windowEnd <= windowStart`) active whenever
`resolvedStart <= now <= resolvedEnd` with the end pushed one day later;
in particular `{start: 22:00, end: 02:00}` at 23:30 on a matching Monday
must be active.  The code instead filters rows in `get_ban_times` with
`start <= now.time() <= end`, which no overnight row can ever satisfy, so
the helper's own `# Overnight ban` branch is unreachable and the matcher
reports the window inactive: at Monday 23:30 (t = 84600 with a Monday
epoch), inside city X's polygon, the lookup returns `none`. -/
theorem c1_overnight_window_unreachable :
    is_in_ban_area mgrC1 0 0 = some "X" ∧
    day_name 84600 = "Monday" ∧
    mgrC1.ban_times = [⟨"X", "Monday", ⟨22, 0, 0⟩, ⟨2, 0, 0⟩⟩] ∧
    get_ban_times mgrC1 "X" 84600 = [] ∧
    point_in_any_ban_zone_using_manager mgrC1 0 0 84600 = none := by
  with_unfolding_all decide

/-- C2: the spec claims each credited (sub)segment contributes exactly one
DrivingInterval via a single `record(currentTime, currentTime+duration)`.
The code appends the same period twice per sub-segment (lines 226 and 262
of src/eta_estimator.py) and once more per whole segment (line 305): a
single 4-hour segment leaves three periods totalling 12 h of driving in
the rolling-window history instead of one 4-hour interval. -/
theorem c2_subsegment_recorded_thrice :
    (simFinal cfgNone 0 (tripSegs havFour routeTwo (some 1) 0)).periods =
      [(0, 14400, 14400), (0, 14400, 14400), (0, 14400, 14400)] ∧
    ((simFinal cfgNone 0 (tripSegs havFour routeTwo (some 1) 0)).periods.map
      fun p => p.2.2).sum = 43200 := by
  norm_num [calculate_eta_with_bans, banEvents, banEvent, startEvent, endEvent, fmtMin,
    simFinal, initState, tripSegs, segStep, subStep, restPhase, banPhase, prunePeriods,
    drivingTime24h, restNeeded, oldestStart, splitSegment, nsplits, endpointLoop,
    sampleCheck, point_in_any_ban_zone_using_manager, is_in_ban_area, get_ban_times,
    day_name, day_names, timeOfDay, dayStart, resolveBanEnd, fullDelay, lerp,
    ClockTime.toSecs, List.findSome?, havFour, routeTwo, cfgNone, mgrNone]

/-- C3 counterexample: the claim says the per-sub-segment ban lookup is
made with the simulated clock already advanced by the sub-segment's
duration.  For a one-hour sub-segment entered at t = 0 with no rest and no
zones, the logged lookup is at clock 0 while the post-advance clock is
3600 — the lookup time does not equal entry + duration. -/
theorem c3_counterexample :
    (subStep cfgNone (initState 0) subE).queries = [(⟨1, 1⟩, 0)] ∧
    (subStep cfgNone (initState 0) subE).time = 3600 ∧
    ¬ ((0 : ℚ) = 0 + subE.dur) := by
  norm_num [calculate_eta_with_bans, banEvents, banEvent, startEvent, endEvent, fmtMin,
    simFinal, initState, tripSegs, segStep, subStep, restPhase, banPhase, prunePeriods,
    drivingTime24h, restNeeded, oldestStart, splitSegment, nsplits, endpointLoop,
    sampleCheck, point_in_any_ban_zone_using_manager, is_in_ban_area, get_ban_times,
    day_name, day_names, timeOfDay, dayStart, resolveBanEnd, fullDelay, lerp,
    ClockTime.toSecs, List.findSome?, subE, cfgNone, mgrNone]

/-- C3 amended: the per-sub-segment ban lookup (line 230) is evaluated at
the sub-segment's end point paired with the *pre-advance* clock — the
entry time after any rest insertion, before the sub-segment's duration is
credited; the clock is advanced only afterwards, so the logged query time
plus the duration never exceeds the step's exit time. -/
theorem c3_query_at_preadvance (cfg : SimCfg) (s : SimState) (sub : Seg) :
    (subStep cfg s sub).queries = s.queries ++ [(sub.p2, restAdjustedTime cfg s sub)] ∧
    restAdjustedTime cfg s sub + sub.dur ≤ (subStep cfg s sub).time := by
  unfold subStep
  dsimp only
  constructor
  · rw [banPhase_queries]
    dsimp only
    rw [restPhase_queries, restPhase_time]
  · have h1 := banPhase_time_ge cfg
      { restPhase cfg s sub with
        periods := (restPhase cfg s sub).periods ++
          [((restPhase cfg s sub).time, (restPhase cfg s sub).time + sub.dur, sub.dur)],
        queries := (restPhase cfg s sub).queries ++ [(sub.p2, (restPhase cfg s sub).time)] } sub
    have h2 := restPhase_time cfg s sub
    dsimp only at h1
    rw [← h2]
    linarith

set_option maxHeartbeats 3200000 in
/-- C4: the spec claims at most one ban DelayRecord per contiguous
presence inside one zone with one active window.  On the fixture the
route enters city X's polygon at the interior sample (lon 10) of the
first segment and stays inside through the next waypoint (lon 12), one
contiguous presence in the same Monday 06:00-20:00 window — yet the run
produces two "X" delay records: the interior-sampling append (which
ignores the dedup state and does not advance the clock) and the next
sub-segment's full append at the same instant 37200. -/
theorem c4_duplicate_ban_records :
    is_in_ban_area mgrX 0 10 = some "X" ∧
    is_in_ban_area mgrX 0 12 = some "X" ∧
    ((simFinal ⟨mgrX, 36000⟩ 36000 (tripSegs havX routeX (some 60) 0)).delays.map
      fun d => (d.city, d.eta_at_ban, d.wait)) =
      [("X", none, 34800), ("X", some 37200, 34800)] := by
  norm_num +decide [calculate_eta_with_bans, banEvents, banEvent, startEvent, endEvent, fmtMin,
    simFinal, initState, tripSegs, segStep, subStep, restPhase, banPhase, prunePeriods,
    drivingTime24h, restNeeded, oldestStart, splitSegment, nsplits, endpointLoop,
    sampleCheck, point_in_any_ban_zone_using_manager, is_in_ban_area, get_ban_times,
    day_name, day_names, timeOfDay, dayStart, resolveBanEnd, fullDelay, lerp,
    ClockTime.toSecs, List.findSome?, mgrX, havX, routeX]

/-- C5: for every trip for which a schedule is returned, the timestamp
sequence across the full ScheduleEvent list (start, then each delay event
in production order, then end) is monotonically non-decreasing.  The
hypotheses record facts of the abstracted geometry and of a valid
configuration: haversine distances are non-negative, a fixed speed is
positive, the provider duration is non-negative, and the driving cap is
positive. -/
theorem c5_schedule_times_monotone
    (hav : Point → Point → ℚ) (mgr : BanAreaManager)
    (slat slon elat elon sdt : ℚ) (route : List Point) (ors : ℚ)
    (vk k : Option String) (br vs : Option ℚ) (mdh : ℚ) (r : EtaResult)
    (hhav : ∀ a b, 0 ≤ hav a b) (hvs : ∀ v, vs = some v → 0 < v)
    (hors : 0 ≤ ors) (hM : 0 < mdh)
    (hr : calculate_eta_with_bans hav mgr slat slon elat elon sdt route ors
      vk k br vs mdh = some r) :
    List.Chain' (fun a b => a ≤ b) (r.schedule.map fun e => e.time) := by
  rw [List.chain'_map]
  exact (calculate_schedule_pairwise hhav hvs hors hM hr).chain'

/-- C5 witness: a concrete one-segment trip returns a schedule whose
timestamps are non-decreasing. -/
theorem c5_witness :
    ∃ r, calculate_eta_with_bans havFour mgrNone 0 0 1 0 0 routeTwo 0
        none none none (some 1) 10 = some r ∧
      List.Chain' (fun a b => a ≤ b) (r.schedule.map fun e => e.time) := by
  have hsome : (calculate_eta_with_bans havFour mgrNone 0 0 1 0 0 routeTwo 0
      none none none (some 1) 10).isSome = true := by
    norm_num [calculate_eta_with_bans, banEvents, banEvent, startEvent, endEvent, fmtMin,
    simFinal, initState, tripSegs, segStep, subStep, restPhase, banPhase, prunePeriods,
    drivingTime24h, restNeeded, oldestStart, splitSegment, nsplits, endpointLoop,
    sampleCheck, point_in_any_ban_zone_using_manager, is_in_ban_area, get_ban_times,
    day_name, day_names, timeOfDay, dayStart, resolveBanEnd, fullDelay, lerp,
    ClockTime.toSecs, List.findSome?, havFour, routeTwo, mgrNone]
  rcases hc : calculate_eta_with_bans havFour mgrNone 0 0 1 0 0 routeTwo 0
      none none none (some 1) 10 with _ | r
  · rw [hc] at hsome
    exact absurd hsome (by simp)
  · refine ⟨r, rfl, ?_⟩
    exact c5_schedule_times_monotone havFour mgrNone 0 0 1 0 0 routeTwo 0
      none none none (some 1) 10 r (fun a b => by norm_num [havFour])
      (fun v hv => by injection hv with hv; subst hv; norm_num)
      (le_refl 0) (by norm_num) hc

end Bantime

namespace Bantime

set_option maxHeartbeats 3200000 in
/-- C6 counterexample: the claim says rest DelayRecords are translated to
ScheduleEvents of kind `rest` and the end event sits at the final
waypoint.  On a trip whose second segment triggers a mandatory rest, the
returned schedule is `start`, then an event of kind `"ban"` carrying city
label `"Rest Stop"` (no `rest` kind exists in the code), then `end` — and
the end event carries the *requested* destination coordinates (5, 5),
not the route's final waypoint (lat 0, lon 2). -/
theorem c6_counterexample :
    ((calculate_eta_with_bans havSix mgrNone 0 0 5 5 0 routeThree 0 none none none
        (some 1) 10).map fun r => r.schedule.map fun e => (e.event, e.city)) =
      some [("start", ""), ("ban", "Rest Stop"), ("end", "")] ∧
    ((calculate_eta_with_bans havSix mgrNone 0 0 5 5 0 routeThree 0 none none none
        (some 1) 10).map fun r => r.route_segments.getLast?) =
      some (some ⟨2, 0⟩) ∧
    ((calculate_eta_with_bans havSix mgrNone 0 0 5 5 0 routeThree 0 none none none
        (some 1) 10).map fun r => (r.schedule.getLast?).map fun e => (e.lat, e.lon)) =
      some (some (5, 5)) ∧
    ¬ (((5 : ℚ), (5 : ℚ)) = ((0 : ℚ), (2 : ℚ))) := by
  norm_num +decide [calculate_eta_with_bans, banEvents, banEvent, startEvent, endEvent,
    fmtMin, simFinal, initState, tripSegs, segStep, subStep, restPhase, banPhase,
    prunePeriods, drivingTime24h, restNeeded, oldestStart, splitSegment, nsplits,
    endpointLoop, sampleCheck, point_in_any_ban_zone_using_manager, is_in_ban_area,
    get_ban_times, day_name, day_names, timeOfDay, dayStart, resolveBanEnd, fullDelay,
    lerp, ClockTime.toSecs, List.findSome?, havSix, routeThree, mgrNone]

/-- C6 amended: for every trip for which a schedule is returned, the
schedule is exactly one `start` event at the original instant and
requested origin, then the delay records translated in production order —
every one of them (rest stops included) as an event of kind `"ban"`, with
nondecreasing timestamps — then exactly one `end` event at the final
clock and the *requested destination* coordinates. -/
theorem c6_schedule_structure
    (hav : Point → Point → ℚ) (mgr : BanAreaManager)
    (slat slon elat elon sdt : ℚ) (route : List Point) (ors : ℚ)
    (vk k : Option String) (br vs : Option ℚ) (mdh : ℚ) (r : EtaResult)
    (hhav : ∀ a b, 0 ≤ hav a b) (hvs : ∀ v, vs = some v → 0 < v)
    (hors : 0 ≤ ors) (hM : 0 < mdh)
    (hr : calculate_eta_with_bans hav mgr slat slon elat elon sdt route ors
      vk k br vs mdh = some r) :
    ∃ evs, banEvents vk k
        (simFinal ⟨mgr, mdh * 3600⟩ sdt (tripSegs hav route vs ors)).delays = some evs ∧
      r.schedule = startEvent vk k sdt slat slon :: evs ++
        [endEvent vk k
          (simFinal ⟨mgr, mdh * 3600⟩ sdt (tripSegs hav route vs ors)).time elat elon] ∧
      (∀ e ∈ evs, e.event = "ban") ∧
      r.schedule.Pairwise fun a b => a.time ≤ b.time := by
  have hpw := calculate_schedule_pairwise hhav hvs hors hM hr
  simp only [calculate_eta_with_bans] at hr
  rcases hbe : banEvents vk k
      (simFinal ⟨mgr, mdh * 3600⟩ sdt (tripSegs hav route vs ors)).delays with _ | evs
  · rw [hbe] at hr
    exact absurd hr (by simp)
  · rw [hbe] at hr
    dsimp only at hr
    injection hr with hr
    refine ⟨evs, rfl, ?_, ?_, hpw⟩
    · rw [← hr]
    · intro e he
      rcases forall2_exists_left (banEvents_forall2 _ _ hbe) e he with
        ⟨d2, _, _, _, _, hev, _⟩
      exact hev

set_option maxHeartbeats 3200000 in
/-- C6 witness: the rest-trip fixture instantiates the amended schedule
structure. -/
theorem c6_witness :
    ∃ r, calculate_eta_with_bans havSix mgrNone 0 0 5 5 0 routeThree 0 none none none
        (some 1) 10 = some r ∧
      (∃ evs, banEvents none none
          (simFinal ⟨mgrNone, 10 * 3600⟩ 0 (tripSegs havSix routeThree (some 1) 0)).delays
            = some evs ∧
        r.schedule = startEvent none none 0 0 0 :: evs ++
          [endEvent none none
            (simFinal ⟨mgrNone, 10 * 3600⟩ 0 (tripSegs havSix routeThree (some 1) 0)).time
            5 5] ∧
        (∀ e ∈ evs, e.event = "ban") ∧
        r.schedule.Pairwise fun a b => a.time ≤ b.time) := by
  have hsome : (calculate_eta_with_bans havSix mgrNone 0 0 5 5 0 routeThree 0
      none none none (some 1) 10).isSome = true := by
    norm_num +decide [calculate_eta_with_bans, banEvents, banEvent, startEvent, endEvent,
      fmtMin, simFinal, initState, tripSegs, segStep, subStep, restPhase, banPhase,
      prunePeriods, drivingTime24h, restNeeded, oldestStart, splitSegment, nsplits,
      endpointLoop, sampleCheck, point_in_any_ban_zone_using_manager, is_in_ban_area,
      get_ban_times, day_name, day_names, timeOfDay, dayStart, resolveBanEnd, fullDelay,
      lerp, ClockTime.toSecs, List.findSome?, havSix, routeThree, mgrNone]
  rcases hc : calculate_eta_with_bans havSix mgrNone 0 0 5 5 0 routeThree 0
      none none none (some 1) 10 with _ | r
  · rw [hc] at hsome
    exact absurd hsome (by simp)
  · refine ⟨r, rfl, ?_⟩
    exact c6_schedule_structure havSix mgrNone 0 0 5 5 0 routeThree 0 none none none
      (some 1) 10 r (fun a b => by norm_num [havSix])
      (fun v hv => by injection hv with hv; subst hv; norm_num)
      (le_refl 0) (by norm_num) hc

/-- C7: the rest-duration rule matches the claim exactly: with a non-empty
(pruned) driving history the rest lasts until the oldest interval start
plus 24 h, floored below at the 14 h minimum; with an empty history it is
exactly 14 h; in every case it is at least 14 h. -/
theorem c7_rest_floor (now : ℚ) (ps : List Period) :
    (ps ≠ [] → restNeeded now ps = max (oldestStart ps + 86400 - now) 50400) ∧
    (ps = [] → restNeeded now ps = 50400) ∧
    50400 ≤ restNeeded now ps := by
  refine ⟨fun h => restNeeded_of_ne now h, fun h => ?_, restNeeded_ge now ps⟩
  subst h
  exact restNeeded_of_nil now

/-- C7 witness: the rest rule evaluated on a one-interval history and on
the empty history. -/
theorem c7_witness :
    restNeeded 7200 [(0, 3600, 3600)] =
      max (oldestStart [(0, 3600, 3600)] + 86400 - 7200) 50400 ∧
    restNeeded 0 [] = 50400 ∧ 50400 ≤ restNeeded 0 [] :=
  ⟨(c7_rest_floor 7200 [(0, 3600, 3600)]).1 (by simp),
   (c7_rest_floor 0 []).2.1 rfl, (c7_rest_floor 0 []).2.2⟩

/-- C8 counterexample: the claim says the sub-segments are equal-time.
Splitting a 25-hour segment at the 10-hour threshold gives durations
10 h, 10 h and 5 h — not all equal. -/
theorem c8_counterexample :
    ((splitSegment 36000 segC8).map fun x => x.dur) = [36000, 36000, 18000] ∧
    ¬ ((36000 : ℚ) = 18000) := by
  norm_num +decide [splitSegment, nsplits, lerp, segC8,
    (show Int.toNat 3 = 3 from rfl), List.range_succ, min_def]

/-- C8 amended: a segment of duration T > M is split into the minimum
number ⌈T/M⌉ of sub-segments; the k-th lasts `min M (T - k*M)` (each at
most M, all nonnegative, summing exactly to T), the distances (allocated
proportionally to time) sum exactly to the segment distance, and the
endpoints are interpolated at the *equal* fractions k/n and (k+1)/n of
the segment — not at duration-proportional fractions. -/
theorem c8_split_spec (M : ℚ) (seg : Seg) (hM : 0 < M) (hMT : M < seg.dur) :
    (splitSegment M seg).length = (⌈seg.dur / M⌉).toNat ∧
    (∀ x ∈ splitSegment M seg, 0 ≤ x.dur ∧ x.dur ≤ M) ∧
    ((splitSegment M seg).map fun x => x.dur).sum = seg.dur ∧
    ((splitSegment M seg).map fun x => x.dist).sum = seg.dist ∧
    ∀ k : ℕ, ∀ hk : k < (splitSegment M seg).length,
      (splitSegment M seg)[k] =
        { p1 := lerp seg.p1 seg.p2 ((k : ℚ) / ((splitSegment M seg).length : ℚ)),
          p2 := lerp seg.p1 seg.p2 (((k : ℚ) + 1) / ((splitSegment M seg).length : ℚ)),
          dur := min M (seg.dur - (k : ℚ) * M),
          dist := seg.dist * (min M (seg.dur - (k : ℚ) * M) / seg.dur) } := by
  refine ⟨?_, ?_, splitSegment_sum_dur hM hMT, splitSegment_sum_dist hM hMT,
    fun k hk => splitSegment_get hM hMT k hk⟩
  · rw [splitSegment_eq hM hMT, List.length_map, List.length_range,
      nsplits_eq_ceil hM (hM.trans hMT)]
  · exact fun x hx => ⟨splitSegment_dur_nonneg hM (hM.trans hMT).le x hx,
      splitSegment_dur_le hM hMT x hx⟩

/-- C8 witness: the amended split law evaluated on the 25-hour segment. -/
theorem c8_witness :
    (0 : ℚ) < 36000 ∧ (36000 : ℚ) < segC8.dur ∧
    ((splitSegment 36000 segC8).map fun x => x.dur).sum = segC8.dur ∧
    (splitSegment 36000 segC8).length = (⌈segC8.dur / 36000⌉).toNat :=
  ⟨by norm_num, by norm_num [segC8],
   (c8_split_spec 36000 segC8 (by norm_num) (by norm_num [segC8])).2.2.1,
   (c8_split_spec 36000 segC8 (by norm_num) (by norm_num [segC8])).1⟩

/-- C9: the interior-sampling append carries only `city` and `wait` (all
other keys absent), and schedule construction reads `eta_at_ban` and the
stop fields from every delay, so any run whose delay list contains such a
record produces no schedule at all: `calculate_eta_with_bans` returns
`none` (the Python code raises `KeyError`). -/
theorem c9_sampling_record_breaks_schedule :
    (∀ (mgr : BanAreaManager) (p1 p2 : Point) (D t : ℚ) (d : Delay),
        sampleCheck mgr p1 p2 D t = some d →
        d.eta_at_ban = none ∧ d.stop_lat = none ∧ d.stop_lon = none ∧
          d.ban_start = none ∧ d.ban_end = none ∧ d.lat = none ∧ d.lon = none) ∧
    (∀ (hav : Point → Point → ℚ) (mgr : BanAreaManager)
        (slat slon elat elon sdt : ℚ) (route : List Point) (ors : ℚ)
        (vk k : Option String) (br vs : Option ℚ) (mdh : ℚ),
        (∃ d ∈ (simFinal ⟨mgr, mdh * 3600⟩ sdt (tripSegs hav route vs ors)).delays,
          d.eta_at_ban = none) →
        calculate_eta_with_bans hav mgr slat slon elat elon sdt route ors
          vk k br vs mdh = none) := by
  constructor
  · intro mgr p1 p2 D t d h
    obtain ⟨hbs, hbe, heta, hlat, hlon, hslat, hslon⟩ := sampleCheck_fields h
    exact ⟨heta, hslat, hslon, hbs, hbe, hlat, hlon⟩
  · intro hav mgr slat slon elat elon sdt route ors vk k br vs mdh h
    obtain ⟨d, hd, he⟩ := h
    simp only [calculate_eta_with_bans]
    rw [banEvents_none_of_mem hd he]

set_option maxHeartbeats 3200000 in
/-- C9 witness: the long-segment fixture whose interior sample detects an
active zone yields no schedule. -/
theorem c9_witness :
    calculate_eta_with_bans havX mgrX 0 0 0 12 36000 routeX 0 none none none
      (some 60) 10 = none := by
  apply c9_sampling_record_breaks_schedule.2
  refine ⟨⟨"X", 34800, none, none, none, none, none, none, none⟩, ?_, rfl⟩
  have hd : (simFinal ⟨mgrX, 10 * 3600⟩ 36000 (tripSegs havX routeX (some 60) 0)).delays =
      [⟨"X", 34800, none, none, none, none, none, none, none⟩,
       ⟨"X", 34800, some 37200, some 72000, some 37200, some 0, some 12, some 0, some 12⟩] := by
    norm_num +decide [simFinal, initState, tripSegs, segStep, subStep, restPhase,
      banPhase, prunePeriods, drivingTime24h, restNeeded, oldestStart, splitSegment,
      nsplits, endpointLoop, sampleCheck, point_in_any_ban_zone_using_manager,
      is_in_ban_area, get_ban_times, day_name, day_names, timeOfDay, dayStart,
      resolveBanEnd, fullDelay, lerp, ClockTime.toSecs, List.findSome?, mgrX, havX, routeX]
  rw [hd]
  exact List.mem_cons_self _ _

/-- C10: `ban_radius_km` is accepted but never read — the result of
`calculate_eta_with_bans` is literally the same term for any two values of
the argument; ban-zone membership is decided solely by the polygon
containment test in `is_in_ban_area`. -/
theorem c10_ban_radius_unused
    (hav : Point → Point → ℚ) (mgr : BanAreaManager)
    (slat slon elat elon sdt : ℚ) (route : List Point) (ors : ℚ)
    (vk k : Option String) (vs : Option ℚ) (mdh : ℚ) (br1 br2 : Option ℚ) :
    calculate_eta_with_bans hav mgr slat slon elat elon sdt route ors vk k br1 vs mdh =
      calculate_eta_with_bans hav mgr slat slon elat elon sdt route ors vk k br2 vs mdh :=
  rfl

end Bantime
